import Mathlib

/-!
Verification development for the PTDBF repository (DOA.py, Beamforming.py,
CalibracionDOA.py and the glue modules).

Modelling conventions:
* Python floats are modelled by `ℚ` in the executable parts (the DOA state
  machine, the calibrator, the beamformer's delay-sum/filter pipeline), and by
  `ℝ` in the parts that involve trigonometry (the precalculated delay tables,
  the Hann window), which are inherently non-executable.
* `np.random.random() < 0.05` is modelled by an explicit boolean input `rand`.
* The SRP-PHAT power `calcular_potencia_angulo(fft, int(deg/0.25))` is a real
  valued function of the candidate angle (in degrees; every angle that the code
  evaluates is an exact multiple of 0.25, so the index conversion is lossless).
  It is passed to the search as an arbitrary function `pots : ℚ → ℚ`, so all
  theorems below hold for every possible block of audio.
* The voice-activity gate `rms > 0.004` (with `rms = sqrt(meanSquare)`) is
  modelled as `meanSquare > 0.004²`, which is equivalent because both sides of
  the original comparison are non-negative and squaring is strictly monotone
  on non-negatives.  This keeps the model inside `ℚ` (no square roots).
* The Butterworth coefficients produced by `scipy.signal.butter` and the
  steady-state vector produced by `scipy.signal.lfilter_zi` are irrational;
  they enter the model as parameters `b a zi : List ℚ`, and every theorem
  about the filtering pipeline is proved for all values of these parameters.
* `scipy.signal.lfilter` / `filtfilt` are modelled structurally (direct form
  II transposed recurrence; odd-padding, forward-backward pass and central
  slice with `padlen = 3 * max(len(a), len(b))`, returning `none` when the
  input is not longer than `padlen`, which is the case where scipy raises).
-/

/-! ## Small numeric utilities (numpy counterparts) -/

/-- `np.arange a b s` for a positive step: the points `a + k·s` with
`k < ⌈(b − a)/s⌉`. -/
def arangeQ (a b s : ℚ) : List ℚ :=
  (List.range (⌈(b - a) / s⌉.toNat)).map (fun k : ℕ => a + (k : ℚ) * s)

/-- `np.max` of a list (first element seeds the fold; `0` on the empty list,
where numpy would raise). -/
def maxList : List ℚ → ℚ
  | [] => 0
  | x :: xs => xs.foldl max x

/-- `np.min` of a list (`0` on the empty list, where numpy would raise). -/
def minList : List ℚ → ℚ
  | [] => 0
  | x :: xs => xs.foldl min x

/-- The element of the list at which `f` attains its maximum, first occurrence
first, exactly like indexing with `np.argmax` (a later element replaces the
current best only when strictly greater).  `0` on the empty list. -/
def argmaxD (f : ℚ → ℚ) : List ℚ → ℚ
  | [] => 0
  | x :: xs => xs.foldl (fun best y => if f best < f y then y else best) x

/-- Insert into a sorted list (ascending). -/
def sortedInsert (x : ℚ) : List ℚ → List ℚ
  | [] => [x]
  | y :: ys => if x ≤ y then x :: y :: ys else y :: sortedInsert x ys

/-- Insertion sort, ascending — the order `np.median` sorts in. -/
def sortQ (l : List ℚ) : List ℚ := l.foldr sortedInsert []

/-- `np.median`: middle element of the sorted list for odd length, mean of the
two middle elements for even length (`0` for the empty list, where numpy
returns NaN; never reached under the guards of the code). -/
def medianQ (l : List ℚ) : ℚ :=
  let s := sortQ l
  let n := s.length
  if n = 0 then 0
  else if n % 2 = 1 then s.getD (n / 2) 0
  else (s.getD (n / 2 - 1) 0 + s.getD (n / 2) 0) / 2

/-- Python's `x % m` for rationals (sign of the divisor; for `m > 0` the
result lies in `[0, m)`). -/
def qmod (x m : ℚ) : ℚ := x - m * ⌊x / m⌋

/-! ## DOA.py — state and per-block update -/

/-- The mutable state of the `DOA` object that the per-block processing
touches.  `offset_calibracion` is not initialised by `DOA.__init__`; it is
first created when `CalibradorDOA` assigns it (we model the not-yet-assigned
attribute as `0`, the value the calibrator's reset path also uses). -/
structure DoaState where
  angulo : ℚ
  confianza : ℚ
  faseGruesa : Bool
  anguloGrueso : ℚ
  offsetCalibracion : ℚ
deriving DecidableEq, Repr

/-- State set up by `DOA.__init__`: `angulo_actual = 0`, `confianza = 0`,
`fase_gruesa = False`, `angulo_grueso = 0`. -/
def doaInit : DoaState :=
  { angulo := 0, confianza := 0, faseGruesa := false, anguloGrueso := 0,
    offsetCalibracion := 0 }

/-- The fine-search half of `DOA.srp_phat_optimizado` (the part after the
coarse phase): search `np.arange(max(0, g−10), min(360, g+10), 0.25)`,
and either produce the arg-max angle with the normalized confidence
`(pmax − median) / (max − min + 1e-12)` clipped to `[0,1]` (resetting the
coarse phase with probability 0.05, input `rand`), or fall back to the
previous angle with confidence `× 0.7` when no power exceeds `1e-12`. -/
def srpFine (s1 : DoaState) (pots : ℚ → ℚ) (rand : Bool) :
    DoaState × ℚ × ℚ :=
  let inicio := max 0 (s1.anguloGrueso - 10)
  let final := min 360 (s1.anguloGrueso + 10)
  let grid := arangeQ inicio final (1/4)
  let potsL := grid.map pots
  if maxList potsL > 1 / 10 ^ 12 then
    let amax := argmaxD pots grid
    let conf0 := (pots amax - medianQ potsL) / (maxList potsL - minList potsL + 1 / 10 ^ 12)
    let conf := min 1 (max 0 conf0)
    let s2 := if rand then { s1 with faseGruesa := false } else s1
    (s2, (amax, conf))
  else
    ({ s1 with faseGruesa := false }, (s1.angulo, s1.confianza * (7/10)))

/-- `DOA.srp_phat_optimizado`: coarse search over `np.arange(0, 360, 5)` when
`fase_gruesa` is off (falling back to the previous angle with confidence
`× 0.8` when the best coarse power is below `1e-10`), then the fine search. -/
def srpPhatOptimizado (s : DoaState) (pots : ℚ → ℚ) (rand : Bool) :
    DoaState × ℚ × ℚ :=
  if s.faseGruesa then srpFine s pots rand
  else
    let coarse := arangeQ 0 360 5
    let s1 := { s with anguloGrueso := argmaxD pots coarse, faseGruesa := true }
    if maxList (coarse.map pots) < 1 / 10 ^ 10 then
      ({ s1 with faseGruesa := false }, (s.angulo, s.confianza * (8/10)))
    else srpFine s1 pots rand

/-- Mean square of the 4-channel block after per-channel DC removal
(`audio_filtrado = frame − mean(frame, axis=0)`).  The code compares
`rms = sqrt(msqFrame) > 0.004`; we compare `msqFrame > 0.004²`. -/
def msqFrame (frame : List (Fin 4 → ℚ)) : ℚ :=
  let n : ℚ := frame.length
  let media : Fin 4 → ℚ := fun ch => (frame.map (fun fila => fila ch)).sum / n
  ((frame.map
      (fun fila => ((List.finRange 4).map (fun ch => (fila ch - media ch) ^ 2)).sum)).sum)
    / (n * 4)

/-- `DOA.calcular_doa`: activity gate, SRP-PHAT, and the confidence-gated
publication step (`> 0.25` publishes the raw angle; otherwise the previous
angle is kept and the confidence decays `× 0.9`; below the gate the
confidence is zeroed and the coarse phase reset).  The `try/except` wrapper
of the Python code is vacuous here: the model is a total function. -/
def calcularDoa (s : DoaState) (frame : List (Fin 4 → ℚ)) (pots : ℚ → ℚ)
    (rand : Bool) : DoaState :=
  if msqFrame frame > (1/250) ^ 2 then
    let r := srpPhatOptimizado s pots rand
    if r.2.2 > 1/4 then { r.1 with angulo := r.2.1, confianza := r.2.2 }
    else { r.1 with confianza := r.1.confianza * (9/10) }
  else { s with confianza := 0, faseGruesa := false }

/-- `DOA.get_angulo_actual`: returns `(angulo_actual, confianza)` — note that
`offset_calibracion` does not appear. -/
def getAnguloActual (s : DoaState) : ℚ × ℚ := (s.angulo, s.confianza)

/-- One processed block: the audio frame, the SRP power function it induces,
and the boolean outcome of the `np.random.random() < 0.05` draw. -/
structure DoaInput where
  frame : List (Fin 4 → ℚ)
  pots : ℚ → ℚ
  rand : Bool

/-- Process one block. -/
def doaStep (s : DoaState) (i : DoaInput) : DoaState :=
  calcularDoa s i.frame i.pots i.rand

/-- Process a sequence of blocks starting from the freshly initialised state. -/
def doaProcess (inputs : List DoaInput) : DoaState :=
  inputs.foldl doaStep doaInit

/-- The published-estimate invariant of the DOA state (claim C9), strengthened
with the analogous bounds on the coarse angle, which the induction needs. -/
def ValidDoa (s : DoaState) : Prop :=
  0 ≤ s.angulo ∧ s.angulo < 360 ∧ 0 ≤ s.confianza ∧ s.confianza ≤ 1 ∧
  0 ≤ s.anguloGrueso ∧ s.anguloGrueso < 360

/-! ## CalibracionDOA.py -/

/-- `CalibradorDOA.calibrar_rapido`, with the timed polling loop abstracted to
the finite list of `(angulo, confianza)` readings it polled from
`get_angulo_actual`.  Readings with confidence `> 0.4` are collected; with no
collected sample the function returns `None` without touching the offset;
otherwise the per-sample error is `(angulo − angulo_real + 180) % 360 − 180`,
and the offset becomes `−median` when `|median| > 2`, else `0`. -/
def calibrarRapido (readings : List (ℚ × ℚ)) (anguloReal : ℚ) (s : DoaState) :
    Option ℚ × DoaState :=
  let angulosRecolectados := (readings.filter (fun p => p.2 > 2/5)).map (fun p => p.1)
  if angulosRecolectados.isEmpty then (none, s)
  else
    let errores := angulosRecolectados.map (fun angulo => qmod (angulo - anguloReal + 180) 360 - 180)
    let errorMediano := medianQ errores
    if |errorMediano| > 2 then
      (some (-errorMediano), { s with offsetCalibracion := -errorMediano })
    else
      (some 0, { s with offsetCalibracion := 0 })

/-! ## The smoothing behaviour the specification describes (for comparison) -/

/-- State of the specification's smoothing step: the code's state plus the
bounded history of raw angle estimates. -/
structure SpecSmoothingState where
  inner : DoaState
  history : List ℚ
deriving DecidableEq, Repr

/-- Initial specification state: fresh code state, empty history. -/
def specSmoothingInit : SpecSmoothingState := { inner := doaInit, history := [] }

/-- Follows the specification's words (claim C3), for comparison with
`calcularDoa`: same activity gate and same raw SRP-PHAT estimate, but above
the confidence threshold the raw angle is pushed into a bounded FIFO history
(capacity 8, oldest evicted) and the median of the history is published as
the smoothed angle.  The confidence threshold is the code's `0.25` (the
specification gives it only approximately, as "~0.3"). -/
def specSmoothingStep (s : SpecSmoothingState) (i : DoaInput) : SpecSmoothingState :=
  if msqFrame i.frame > (1/250) ^ 2 then
    let r := srpPhatOptimizado s.inner i.pots i.rand
    if r.2.2 > 1/4 then
      let h0 := s.history ++ [r.2.1]
      let h := h0.drop (h0.length - 8)
      { inner := { r.1 with angulo := medianQ h, confianza := r.2.2 }, history := h }
    else
      { inner := { r.1 with confianza := r.1.confianza * (9/10) }, history := s.history }
  else
    { inner := { s.inner with confianza := 0, faseGruesa := false }, history := s.history }

/-- Process a sequence of blocks with the specification's smoothing. -/
def specSmoothingProcess (inputs : List DoaInput) : SpecSmoothingState :=
  inputs.foldl specSmoothingStep specSmoothingInit

/-! ## Beamforming.py — delay-sum and IIR filtering

The per-angle quantized delay row `delay_samples = round(delays * 16000)`
(non-negative by the table normalization, proved in the `ℝ` section below)
enters as `dsamp : Fin 4 → ℕ`; the Hann window values
`ventana = np.hanning(len(audio_data))` enter as `hann : ℕ → ℚ` (their real
values are irrational cosines; `hanningReal` below is the real-valued
definition). -/

/-- `np.max(delay_samples)` over the four microphones. -/
def maxDelay (dsamp : Fin 4 → ℕ) : ℕ :=
  max (max (dsamp 0) (dsamp 1)) (max (dsamp 2) (dsamp 3))

/-- `audio_ventaneado = audio_data * ventana[:, np.newaxis]`. -/
def ventanear (hann : ℕ → ℚ) (x : List (Fin 4 → ℚ)) : List (Fin 4 → ℚ) :=
  (List.range x.length).map (fun k ch => hann k * x.getD k (fun _ => 0) ch)

/-- Entry `(i, mic)` of `aligned_signals` after the per-microphone slice
writes: microphone `mic` contributes its sample `i − dsamp mic` when
`dsamp mic ≤ i < dsamp mic + n`, and the code's (always-true) bounds check
`end_idx <= output_length` is kept as the first conjunct. -/
def alignedEntry (dsamp : Fin 4 → ℕ) (xw : List (Fin 4 → ℚ)) (i : ℕ)
    (m : Fin 4) : ℚ :=
  if dsamp m + xw.length ≤ xw.length + maxDelay dsamp ∧
      dsamp m ≤ i ∧ i < dsamp m + xw.length then
    xw.getD (i - dsamp m) (fun _ => 0) m
  else 0

/-- `np.sum(aligned_signals, axis=1)` at output index `i`. -/
def alignedSum (dsamp : Fin 4 → ℕ) (xw : List (Fin 4 → ℚ)) (i : ℕ) : ℚ :=
  ((List.finRange 4).map (fun m => alignedEntry dsamp xw i m)).sum

/-- `beamformed_signal = np.sum(aligned_signals, axis=1) / 4.0` over the
padded output of length `n + max_delay`. -/
def beamformedSignal (dsamp : Fin 4 → ℕ) (xw : List (Fin 4 → ℚ)) : List ℚ :=
  (List.range (xw.length + maxDelay dsamp)).map (fun i => alignedSum dsamp xw i / 4)

/-- `señal_sin_filtrar = beamformed_signal[:len(audio_ventaneado)]`. -/
def senalSinFiltrar (dsamp : Fin 4 → ℕ) (xw : List (Fin 4 → ℚ)) : List ℚ :=
  (beamformedSignal dsamp xw).take xw.length

/-- Number of microphones contributing a sample at output index `i`
(for a block of `n` samples). -/
def contribCount (dsamp : Fin 4 → ℕ) (n i : ℕ) : ℕ :=
  ((List.finRange 4).filter (fun m => decide (dsamp m ≤ i ∧ i < dsamp m + n))).length

/-- Follows the specification's words (claim C4), for comparison with
`senalSinFiltrar`: the summed aligned channels divided, at each output index,
by the count of channels actually contributing a sample there. -/
def delaySumPorContribuyentes (dsamp : Fin 4 → ℕ) (xw : List (Fin 4 → ℚ)) : List ℚ :=
  (List.range xw.length).map
    (fun i => alignedSum dsamp xw i / (contribCount dsamp xw.length i : ℚ))

/-- One sample of `scipy.signal.lfilter` in direct form II transposed, for
normalized coefficient vectors `bn, an` of equal length and delay-line state
`z` of length one less: output `y = bn₀·x + z₀` and shifted state
`z'ₖ = bnₖ₊₁·x + zₖ₊₁ − anₖ₊₁·y`. -/
def lfilterStep (bn an z : List ℚ) (xi : ℚ) : ℚ × List ℚ :=
  let y := bn.getD 0 0 * xi + z.getD 0 0
  (y, (List.range (bn.length - 1)).map
    (fun k => bn.getD (k + 1) 0 * xi + z.getD (k + 1) 0 - an.getD (k + 1) 0 * y))

/-- Run the `lfilter` recurrence over an input list, returning the outputs and
the final delay-line state. -/
def lfilterGo (bn an : List ℚ) : List ℚ → List ℚ → List ℚ × List ℚ
  | z, [] => ([], z)
  | z, xi :: rest =>
    let p := lfilterStep bn an z xi
    let r := lfilterGo bn an p.2 rest
    (p.1 :: r.1, r.2)

/-- `scipy.signal.lfilter b a x zi`: coefficients are padded to the common
length and normalized by `a[0]` (on which scipy insists being nonzero), then
the direct form II transposed recurrence runs with initial state `zi`. -/
def lfilterQ (b a zi x : List ℚ) : List ℚ × List ℚ :=
  let m := max b.length a.length
  let a0 := a.getD 0 0
  let bn := (List.range m).map (fun k => b.getD k 0 / a0)
  let an := (List.range m).map (fun k => a.getD k 0 / a0)
  lfilterGo bn an zi x

/-- `scipy.signal._arraytools.odd_ext x p`: odd reflection of `p` samples at
both ends, `2·x₀ − x_{p−i}` on the left and `2·x_{n−1} − x_{n−2−i}` on the
right. -/
def oddExtQ (p : ℕ) (x : List ℚ) : List ℚ :=
  ((List.range p).map (fun i => 2 * x.getD 0 0 - x.getD (p - i) 0))
    ++ x
    ++ ((List.range p).map (fun i => 2 * x.getD (x.length - 1) 0 - x.getD (x.length - 2 - i) 0))

/-- `scipy.signal.filtfilt b a x` (default `padtype='odd'`,
`padlen = 3 * max(len(a), len(b))`, `method='pad'`), with the steady-state
vector `lfilter_zi(b, a)` passed in as `zi`: odd-pad, filter forward with
initial state `zi·ext₀`, filter the reverse with initial state `zi·y_last`,
reverse again, and slice the central `n` samples.  Returns `none` when the
input is not longer than `padlen` (scipy raises `ValueError` there). -/
def filtfiltQ (b a zi x : List ℚ) : Option (List ℚ) :=
  let p := 3 * max a.length b.length
  if x.length ≤ p then none
  else
    let ext := oddExtQ p x
    let y1 := (lfilterQ b a (zi.map (· * ext.getD 0 0)) ext).1
    let y2 := (lfilterQ b a (zi.map (· * y1.getD (y1.length - 1) 0)) y1.reverse).1
    some ((y2.reverse.drop p).take x.length)

/-- `BeamformingSystem._aplicar_filtro_iir`: with `usar_filtfilt=True` the
zero-phase `filtfilt` is applied and the streaming state `filtro_zi` is left
alone; otherwise the streaming `lfilter` runs (initialising `filtro_zi` to
`lfilter_zi(b, a)` — the parameter `zi` — when still `None`) and the state is
carried across calls. -/
def aplicarFiltroIIR (b a zi : List ℚ) (filtroZi : Option (List ℚ))
    (x : List ℚ) (usarFiltfilt : Bool) : Option (List ℚ) × Option (List ℚ) :=
  if usarFiltfilt then (filtfiltQ b a zi x, filtroZi)
  else
    let r := lfilterQ b a (filtroZi.getD zi) x
    (some r.1, some r.2)

/-- `BeamformingSystem.apply_beamforming`: Hann windowing, delay-sum over the
quantized delay row of the current angle, truncation to the input length, and
the IIR filter in its default zero-phase mode (`usar_filtfilt=True`).
Returns the filtered block together with the (un)changed streaming filter
state. -/
def applyBeamforming (hann : ℕ → ℚ) (b a zi : List ℚ) (dsamp : Fin 4 → ℕ)
    (filtroZi : Option (List ℚ)) (x : List (Fin 4 → ℚ)) :
    Option (List ℚ) × Option (List ℚ) :=
  aplicarFiltroIIR b a zi filtroZi (senalSinFiltrar dsamp (ventanear hann x)) true

/-! ## Concrete inputs used by counterexamples and witnesses -/

/-- A 2-sample block with values `+1` and `−1` on every channel: zero DC mean
per channel, mean square `1`, so the activity gate passes. -/
def frameActivo : List (Fin 4 → ℚ) := [fun _ => 1, fun _ => -1]

/-- A power function peaking (value 1) exactly at 0°. -/
def potsPeak0 : ℚ → ℚ := fun a => if a = 0 then 1 else 0

/-- A power function peaking (value 1) exactly at 10°. -/
def potsPeak10 : ℚ → ℚ := fun a => if a = 10 then 1 else 0

/-- A constant power function: every candidate angle scores 1. -/
def potsOnes : ℚ → ℚ := fun _ => 1

/-- First counterexample block for claim C3: high-confidence raw estimate at
0°, with the random coarse reset drawn (so the next block re-runs the coarse
search). -/
def cxInput1 : DoaInput := ⟨frameActivo, potsPeak0, true⟩

/-- Second counterexample block for claim C3: high-confidence raw estimate at
10°. -/
def cxInput2 : DoaInput := ⟨frameActivo, potsPeak10, false⟩

/-- A state with a previously published angle 7° and confidence 1/2. -/
def sW : DoaState :=
  { angulo := 7, confianza := 1/2, faseGruesa := false, anguloGrueso := 0,
    offsetCalibracion := 0 }

/-- The quantized delay row of the beamformer's table at 0°
(`round([2r/c, r/c, 0, r/c] · 16000) = [3, 2, 0, 2]`; proved against the real
table in the counterexample of claim C4). -/
def dsampAngle0 : Fin 4 → ℕ := ![3, 2, 0, 2]

/-- The exact values of `np.hanning(3)`: `[0, 1, 0]` (proved against the real
Hann window in the counterexample of claim C4). -/
def w3 : ℕ → ℚ := fun k => if k = 1 then 1 else 0

/-- A 3-sample block with every sample 1 on every channel. -/
def bloque3 : List (Fin 4 → ℚ) := List.replicate 3 (fun _ => 1)

/-- Identity-like 9-tap coefficient vector (same length as the order-4
band-pass Butterworth's), used to instantiate filter-parameter witnesses. -/
def coefUnit : List ℚ := 1 :: List.replicate 8 0

/-- A zero 8-vector standing in for `lfilter_zi` in witnesses. -/
def ziZero : List ℚ := List.replicate 8 0

/-- A 28-sample all-zero 4-channel block (long enough for `filtfilt`'s
27-sample padding). -/
def bloqueZeros28 : List (Fin 4 → ℚ) := List.replicate 28 (fun _ => 0)

/-! ## Array geometry and the precalculated delay tables (real-valued) -/

/-- Array radius, 0.0325 m (identical in `DOA.__init__` and
`BeamformingSystem.__init__`). -/
def radio : ℝ := 0.0325

/-- The four microphone positions `[(-r,0), (0,-r), (r,0), (0,r)]`
(`self.posiciones` / `self.mic_positions`). -/
noncomputable def posiciones : Fin 4 → ℝ × ℝ :=
  ![(-radio, 0), (0, -radio), (radio, 0), (0, radio)]

/-- Speed of sound, 343 m/s. -/
def soundSpeed : ℝ := 343

/-- `np.deg2rad`. -/
noncomputable def deg2rad (d : ℝ) : ℝ := d * Real.pi / 180

/-- The unit direction vector `[cos θ, sin θ]` of a candidate angle. -/
noncomputable def direccion (θ : ℝ) : ℝ × ℝ := (Real.cos θ, Real.sin θ)

/-- Planar dot product `np.dot`. -/
def dot2 (p q : ℝ × ℝ) : ℝ := p.1 * q.1 + p.2 * q.2

/-- `DOA.delays_precalculados`: entry `(i, mic)` of the DOA delay table, for
the angle grid `np.deg2rad(np.arange(0, 360, 0.25))`:
`np.dot(posiciones[mic], direccion) / sound_speed` — note the positive sign. -/
noncomputable def doaDelays (i : Fin 1440) (mic : Fin 4) : ℝ :=
  dot2 (posiciones mic) (direccion (deg2rad ((i : ℕ) * (1/4 : ℝ)))) / soundSpeed

/-- `BeamformingSystem._precalculate_all_delays`, before the row
normalization: `-np.dot(mic_positions[mic], direction) / sound_speed` at each
whole degree. -/
noncomputable def beamDelaysPre (a : Fin 360) (mic : Fin 4) : ℝ :=
  -dot2 (posiciones mic) (direccion (deg2rad ((a : ℕ) : ℝ))) / soundSpeed

/-- `np.min(delays[angle_deg])` over the four microphones of a row. -/
noncomputable def beamRowMin (a : Fin 360) : ℝ :=
  min (min (beamDelaysPre a 0) (beamDelaysPre a 1))
    (min (beamDelaysPre a 2) (beamDelaysPre a 3))

/-- The beamformer's stored table (`self.delays_precalculated`): each row
shifted down by its minimum (`delays[angle_deg] -= np.min(delays[angle_deg])`).
`calculate_delays(angle_deg)` returns the row of this table at
`int(round(angle_deg)) % 360`. -/
noncomputable def beamDelays (a : Fin 360) (mic : Fin 4) : ℝ :=
  beamDelaysPre a mic - beamRowMin a

/-- Follows the specification's words (claim C2): the per-angle delay formula
`delay(θ, mic) = -(position[mic] · direction(θ)) / sound_speed`. -/
noncomputable def delaySpecFormula (θ : ℝ) (mic : Fin 4) : ℝ :=
  -(dot2 (posiciones mic) (direccion θ)) / soundSpeed

/-- `np.round` on a scalar: round half to even. -/
noncomputable def npRound (x : ℝ) : ℤ :=
  if x - ⌊x⌋ < 1/2 then ⌊x⌋
  else if 1/2 < x - ⌊x⌋ then ⌊x⌋ + 1
  else if Even ⌊x⌋ then ⌊x⌋ else ⌊x⌋ + 1

/-- `delay_samples = np.round(delays * self.sample_rate).astype(int)` for the
row of the beamformer table at angle `a` (sample rate 16000). -/
noncomputable def delaySamplesReal (a : Fin 360) (mic : Fin 4) : ℤ :=
  npRound (beamDelays a mic * 16000)

/-- `np.hanning M` at index `k`: `0.5 − 0.5·cos(2πk/(M−1))`. -/
noncomputable def hanningReal (M k : ℕ) : ℝ :=
  1/2 - 1/2 * Real.cos (2 * Real.pi * (k : ℝ) / ((M : ℝ) - 1))

/-! ## Supporting lemmas -/

theorem foldl_pick_mem (f : ℚ → ℚ) :
    ∀ (xs : List ℚ) (b : ℚ),
      xs.foldl (fun best y => if f best < f y then y else best) b = b ∨
      xs.foldl (fun best y => if f best < f y then y else best) b ∈ xs := by
  intro xs
  induction xs with
  | nil => exact fun b => Or.inl rfl
  | cons y ys ih =>
    intro b
    rcases ih (if f b < f y then y else b) with h | h
    · rw [List.foldl_cons, h]
      split_ifs
      · exact Or.inr (List.mem_cons_self _ _)
      · exact Or.inl rfl
    · exact Or.inr (List.mem_cons_of_mem _ (by rw [List.foldl_cons]; exact h))

theorem argmaxD_mem {f : ℚ → ℚ} {l : List ℚ} (h : l ≠ []) : argmaxD f l ∈ l := by
  cases l with
  | nil => exact absurd rfl h
  | cons x xs =>
    rcases foldl_pick_mem f xs x with h1 | h1
    · rw [argmaxD, h1]; exact List.mem_cons_self _ _
    · exact List.mem_cons_of_mem _ h1

theorem mem_arangeQ {a b s x : ℚ} (hs : 0 < s) (hx : x ∈ arangeQ a b s) :
    a ≤ x ∧ x < b := by
  unfold arangeQ at hx
  obtain ⟨k, hk, rfl⟩ := List.mem_map.mp hx
  have hkN : k < ⌈(b - a) / s⌉.toNat := List.mem_range.mp hk
  refine ⟨le_add_of_nonneg_right (mul_nonneg (Nat.cast_nonneg k) hs.le), ?_⟩
  have hk1 : (k : ℤ) < ⌈(b - a) / s⌉ := Int.lt_toNat.mp hkN
  have hk2 : ((k : ℤ) : ℚ) < (b - a) / s := Int.lt_ceil.mp hk1
  have hk3 : (k : ℚ) < (b - a) / s := by push_cast at hk2; exact hk2
  have hk4 : (k : ℚ) * s < b - a := (lt_div_iff₀ hs).mp hk3
  linarith

theorem arangeQ_ne_nil {a b s : ℚ} (hab : a < b) (hs : 0 < s) :
    arangeQ a b s ≠ [] := by
  have h1 : 0 < (b - a) / s := div_pos (sub_pos.mpr hab) hs
  have h2 : 0 < ⌈(b - a) / s⌉ := Int.ceil_pos.mpr h1
  have h3 : 0 < (arangeQ a b s).length := by
    unfold arangeQ
    simp only [List.length_map, List.length_range]
    exact Int.lt_toNat.mpr h2
  exact List.length_pos.mp h3

theorem srpFine_preserves (s1 : DoaState) (pots : ℚ → ℚ) (rand : Bool) :
    (srpFine s1 pots rand).1.angulo = s1.angulo ∧
    (srpFine s1 pots rand).1.confianza = s1.confianza ∧
    (srpFine s1 pots rand).1.anguloGrueso = s1.anguloGrueso ∧
    (srpFine s1 pots rand).1.offsetCalibracion = s1.offsetCalibracion := by
  simp only [srpFine]
  split_ifs <;> exact ⟨rfl, rfl, rfl, rfl⟩

theorem srpPhat_preserves (s : DoaState) (pots : ℚ → ℚ) (rand : Bool) :
    (srpPhatOptimizado s pots rand).1.angulo = s.angulo ∧
    (srpPhatOptimizado s pots rand).1.confianza = s.confianza ∧
    (srpPhatOptimizado s pots rand).1.offsetCalibracion = s.offsetCalibracion := by
  simp only [srpPhatOptimizado]
  split_ifs
  · have h := srpFine_preserves s pots rand
    exact ⟨h.1, h.2.1, h.2.2.2⟩
  · exact ⟨rfl, rfl, rfl⟩
  · have h := srpFine_preserves
      { s with anguloGrueso := argmaxD pots (arangeQ 0 360 5), faseGruesa := true }
      pots rand
    exact ⟨h.1, h.2.1, h.2.2.2⟩

theorem srpFine_bounds (s1 : DoaState) (pots : ℚ → ℚ) (rand : Bool)
    (_hg1 : 0 ≤ s1.anguloGrueso)
    (ha1 : 0 ≤ s1.angulo) (ha2 : s1.angulo < 360)
    (hc1 : 0 ≤ s1.confianza) (hc2 : s1.confianza ≤ 1) :
    (0 ≤ (srpFine s1 pots rand).2.1 ∧ (srpFine s1 pots rand).2.1 < 360) ∧
    (0 ≤ (srpFine s1 pots rand).2.2 ∧ (srpFine s1 pots rand).2.2 ≤ 1) := by
  by_cases hmax :
      maxList ((arangeQ (max 0 (s1.anguloGrueso - 10)) (min 360 (s1.anguloGrueso + 10))
        (1/4)).map pots) > 1 / 10 ^ 12
  · have hne : arangeQ (max 0 (s1.anguloGrueso - 10)) (min 360 (s1.anguloGrueso + 10))
        (1/4) ≠ [] := by
      intro hnil
      rw [hnil] at hmax
      norm_num [maxList] at hmax
    have hmem := argmaxD_mem (f := pots) hne
    have hb := mem_arangeQ (by norm_num) hmem
    simp only [srpFine, if_pos hmax]
    exact ⟨⟨le_trans (le_max_left 0 _) hb.1, lt_of_lt_of_le hb.2 (min_le_left 360 _)⟩,
      le_min (by norm_num) (le_max_left 0 _), min_le_left 1 _⟩
  · simp only [srpFine, if_neg hmax]
    exact ⟨⟨ha1, ha2⟩, mul_nonneg hc1 (by norm_num), by linarith⟩

theorem srpPhat_valid (s : DoaState) (pots : ℚ → ℚ) (rand : Bool)
    (h : ValidDoa s) :
    ValidDoa (srpPhatOptimizado s pots rand).1 ∧
    (0 ≤ (srpPhatOptimizado s pots rand).2.1 ∧ (srpPhatOptimizado s pots rand).2.1 < 360) ∧
    (0 ≤ (srpPhatOptimizado s pots rand).2.2 ∧ (srpPhatOptimizado s pots rand).2.2 ≤ 1) := by
  obtain ⟨ha1, ha2, hc1, hc2, hg1, hg2⟩ := h
  have hcoarse : ∀ g, g ∈ arangeQ 0 360 5 → 0 ≤ g ∧ g < 360 := by
    intro g hg
    exact mem_arangeQ (by norm_num) hg
  by_cases hfase : s.faseGruesa = true
  · have hp := srpFine_preserves s pots rand
    have hb := srpFine_bounds s pots rand hg1 ha1 ha2 hc1 hc2
    simp only [srpPhatOptimizado, if_pos hfase]
    refine ⟨?_, hb⟩
    unfold ValidDoa
    rw [hp.1, hp.2.1, hp.2.2.1]
    exact ⟨ha1, ha2, hc1, hc2, hg1, hg2⟩
  · have hgm := hcoarse _ (argmaxD_mem (f := pots) (arangeQ_ne_nil (by norm_num) (by norm_num)))
    by_cases hearly : maxList (List.map pots (arangeQ 0 360 5)) < 1 / 10 ^ 10
    · simp only [srpPhatOptimizado, if_neg hfase, if_pos hearly]
      exact ⟨⟨ha1, ha2, hc1, hc2, hgm.1, hgm.2⟩, ⟨ha1, ha2⟩,
        mul_nonneg hc1 (by norm_num), by linarith⟩
    · have hp := srpFine_preserves
        { s with anguloGrueso := argmaxD pots (arangeQ 0 360 5), faseGruesa := true }
        pots rand
      have hb := srpFine_bounds
        { s with anguloGrueso := argmaxD pots (arangeQ 0 360 5), faseGruesa := true }
        pots rand hgm.1 ha1 ha2 hc1 hc2
      simp only [srpPhatOptimizado, if_neg hfase, if_neg hearly]
      refine ⟨?_, hb⟩
      unfold ValidDoa
      rw [hp.1, hp.2.1, hp.2.2.1]
      exact ⟨ha1, ha2, hc1, hc2, hgm.1, hgm.2⟩


theorem calcularDoa_valid (s : DoaState) (frame : List (Fin 4 → ℚ)) (pots : ℚ → ℚ)
    (rand : Bool) (h : ValidDoa s) : ValidDoa (calcularDoa s frame pots rand) := by
  by_cases hgate : msqFrame frame > (1/250) ^ 2
  · have hv := srpPhat_valid s pots rand h
    by_cases hconf : (srpPhatOptimizado s pots rand).2.2 > 1/4
    · simp only [calcularDoa, if_pos hgate, if_pos hconf]
      unfold ValidDoa
      exact ⟨hv.2.1.1, hv.2.1.2, hv.2.2.1, hv.2.2.2,
        hv.1.2.2.2.2.1, hv.1.2.2.2.2.2⟩
    · simp only [calcularDoa, if_pos hgate, if_neg hconf]
      unfold ValidDoa
      refine ⟨hv.1.1, hv.1.2.1, ?_, ?_, hv.1.2.2.2.2.1, hv.1.2.2.2.2.2⟩
      · exact mul_nonneg hv.1.2.2.1 (by norm_num)
      · have := hv.1.2.2.2.1
        have := hv.1.2.2.1
        linarith
  · simp only [calcularDoa, if_neg hgate]
    obtain ⟨ha1, ha2, hc1, hc2, hg1, hg2⟩ := h
    exact ⟨ha1, ha2, le_refl 0, by norm_num, hg1, hg2⟩

/-! ## Claim theorems: the DOA estimator -/

/-- C9: in every state reachable from initialization by processing any
sequence of blocks (any audio, any SRP power landscape, any random draw), the
published angle lies in `[0, 360)` and the published confidence in `[0, 1]`. -/
theorem C9_direction_estimate_invariant (inputs : List DoaInput) :
    0 ≤ (doaProcess inputs).angulo ∧ (doaProcess inputs).angulo < 360 ∧
    0 ≤ (doaProcess inputs).confianza ∧ (doaProcess inputs).confianza ≤ 1 := by
  have aux : ∀ (l : List DoaInput) (s : DoaState),
      ValidDoa s → ValidDoa (l.foldl doaStep s) := by
    intro l
    induction l with
    | nil => exact fun s hs => hs
    | cons i t ih => exact fun s hs => ih _ (calcularDoa_valid s i.frame i.pots i.rand hs)
  have h := aux inputs doaInit (by unfold ValidDoa doaInit; norm_num)
  exact ⟨h.1, h.2.1, h.2.2.1, h.2.2.2.1⟩

/-- C7: a block whose RMS after DC removal is below the activity threshold
(equivalently, mean square below the squared threshold) leaves the published
angle unchanged and zeroes the confidence immediately (bound: one block); the
model is a total function, so no exception is possible. -/
theorem C7_silence_keeps_angle_zero_confidence (s : DoaState)
    (frame : List (Fin 4 → ℚ)) (pots : ℚ → ℚ) (rand : Bool)
    (h : msqFrame frame < (1/250) ^ 2) :
    (calcularDoa s frame pots rand).angulo = s.angulo ∧
    (calcularDoa s frame pots rand).confianza = 0 := by
  have hng : ¬ msqFrame frame > (1/250) ^ 2 := lt_asymm h
  unfold calcularDoa
  rw [if_neg hng]
  exact ⟨rfl, rfl⟩

/-- Witness for C7 at an all-zero block: the gate hypothesis holds (mean
square 0), the angle 7 of the prior state is kept and the confidence drops
from 1/2 to 0. -/
theorem C7_silence_witness :
    msqFrame (List.replicate 2 (fun _ => (0:ℚ))) < (1/250) ^ 2 ∧
    (calcularDoa sW (List.replicate 2 (fun _ => 0)) potsOnes false).angulo = 7 ∧
    (calcularDoa sW (List.replicate 2 (fun _ => 0)) potsOnes false).confianza = 0 := by
  have h : msqFrame (List.replicate 2 (fun _ => (0:ℚ))) < (1/250) ^ 2 := by
    with_unfolding_all decide
  have hc := C7_silence_keeps_angle_zero_confidence sW
    (List.replicate 2 (fun _ => 0)) potsOnes false h
  exact ⟨h, hc.1, hc.2⟩

/-- C3 (amended): on a block that passes the activity gate, if the raw
SRP-PHAT confidence is at most 0.25 the previously published angle is kept
and the confidence is discounted `× 0.9`; otherwise the raw angle itself is
published together with the raw confidence (no history buffer, no median). -/
theorem C3_smoothing_amended (s : DoaState) (frame : List (Fin 4 → ℚ))
    (pots : ℚ → ℚ) (rand : Bool) (hgate : msqFrame frame > (1/250) ^ 2) :
    ((srpPhatOptimizado s pots rand).2.2 ≤ 1/4 →
      (calcularDoa s frame pots rand).angulo = s.angulo ∧
      (calcularDoa s frame pots rand).confianza = s.confianza * (9/10)) ∧
    ((srpPhatOptimizado s pots rand).2.2 > 1/4 →
      (calcularDoa s frame pots rand).angulo = (srpPhatOptimizado s pots rand).2.1 ∧
      (calcularDoa s frame pots rand).confianza = (srpPhatOptimizado s pots rand).2.2) := by
  have hp := srpPhat_preserves s pots rand
  constructor
  · intro hle
    have hneg : ¬ (srpPhatOptimizado s pots rand).2.2 > 1/4 := not_lt.mpr hle
    simp only [calcularDoa, if_pos hgate, if_neg hneg]
    exact ⟨hp.1, congrArg (· * (9/10)) hp.2.1⟩
  · intro hgt
    simp only [calcularDoa, if_pos hgate, if_pos hgt]
    exact ⟨trivial, trivial⟩

set_option maxRecDepth 10000 in
/-- Witness for C3 (amended): from a state with published angle 7 and
confidence 1/2, processing an active block whose power landscape is flat
(raw confidence 0) keeps the angle 7 and decays the confidence to 9/20. -/
theorem C3_smoothing_amended_witness :
    msqFrame frameActivo > (1/250) ^ 2 ∧
    (srpPhatOptimizado sW potsOnes false).2.2 ≤ 1/4 ∧
    (calcularDoa sW frameActivo potsOnes false).angulo = 7 ∧
    (calcularDoa sW frameActivo potsOnes false).confianza = 9/20 := by
  have hgate : msqFrame frameActivo > (1/250) ^ 2 := by with_unfolding_all decide
  have hle : (srpPhatOptimizado sW potsOnes false).2.2 ≤ 1/4 := by
    with_unfolding_all decide
  have h := (C3_smoothing_amended sW frameActivo potsOnes false hgate).1 hle
  exact ⟨hgate, hle, h.1, h.2.trans (by with_unfolding_all decide)⟩

set_option maxRecDepth 10000 in
/-- C3 counterexample: two consecutive gate-passing blocks whose raw
estimates are 0° and then 10°, both at near-1 confidence.  The code publishes
the second raw angle, 10°; the specification's median-of-history smoothing
(`specSmoothingStep`, capacity-8 FIFO) would publish `median {0, 10} = 5`.
So the published angle is not the median of a history of raw estimates. -/
theorem C3_median_smoothing_counterexample :
    (doaProcess [cxInput1, cxInput2]).angulo = 10 ∧
    (specSmoothingProcess [cxInput1, cxInput2]).inner.angulo = 5 ∧
    (doaProcess [cxInput1, cxInput2]).angulo ≠
      (specSmoothingProcess [cxInput1, cxInput2]).inner.angulo := by
  with_unfolding_all decide

/-- C1: the calibration offset is written by the calibrator but never applied
by `get_angulo_actual`.  After a calibration run that stores offset −10, the
published angle is still the raw `angulo_actual` (0); the claim's
`(smoothed + offset) mod 360 = 350` differs from it. -/
theorem C1_offset_calibracion_never_applied :
    (calibrarRapido [(10, 1)] 0 doaInit).2.offsetCalibracion = -10 ∧
    getAnguloActual (calibrarRapido [(10, 1)] 0 doaInit).2 = (0, 0) ∧
    qmod ((calibrarRapido [(10, 1)] 0 doaInit).2.angulo +
        (calibrarRapido [(10, 1)] 0 doaInit).2.offsetCalibracion) 360 ≠
      (getAnguloActual (calibrarRapido [(10, 1)] 0 doaInit).2).1 := by
  with_unfolding_all decide

/-- C6: the calibrate operation computes each error as
`(estimate − reference + 180) mod 360 − 180`; with zero collected samples it
returns `None` and leaves the state (hence the offset) untouched; with
samples it sets the offset to the negated median error when `|median| > 2`,
and to zero otherwise. -/
theorem C6_calibrate_behavior (readings : List (ℚ × ℚ)) (anguloReal : ℚ)
    (s : DoaState) (kept : List ℚ)
    (hk : kept = (readings.filter (fun p => p.2 > 2/5)).map (fun p => p.1))
    (m : ℚ)
    (hm : m = medianQ (kept.map (fun angulo => qmod (angulo - anguloReal + 180) 360 - 180))) :
    (kept = [] → calibrarRapido readings anguloReal s = (none, s)) ∧
    (kept ≠ [] → |m| > 2 →
      calibrarRapido readings anguloReal s =
        (some (-m), { s with offsetCalibracion := -m })) ∧
    (kept ≠ [] → ¬ |m| > 2 →
      calibrarRapido readings anguloReal s =
        (some 0, { s with offsetCalibracion := 0 })) := by
  subst hm
  subst hk
  refine ⟨fun h => ?_, fun h h2 => ?_, fun h h2 => ?_⟩
  · unfold calibrarRapido
    rw [h]
    simp
  · have hie : ¬ (((readings.filter (fun p => p.2 > 2/5)).map (fun p => p.1)).isEmpty = true) := by
      simpa [List.isEmpty_iff] using h
    simp only [calibrarRapido, if_neg hie, if_pos h2]
  · have hie : ¬ (((readings.filter (fun p => p.2 > 2/5)).map (fun p => p.1)).isEmpty = true) := by
      simpa [List.isEmpty_iff] using h
    simp only [calibrarRapido, if_neg hie, if_neg h2]

/-- Witness for C6: one reading (10°, confidence 1/2) against reference 0°
is kept, has median error 10 with `|10| > 2`, and the calibrator returns
offset −10 and stores it. -/
theorem C6_calibrate_behavior_witness :
    (([((10:ℚ), (1:ℚ)/2)].filter (fun p => p.2 > 2/5)).map (fun p => p.1) ≠ []) ∧
    |(10:ℚ)| > 2 ∧
    calibrarRapido [(10, 1/2)] 0 doaInit =
      (some (-10), { doaInit with offsetCalibracion := -10 }) := by
  have hk : [(10:ℚ)] = ([((10:ℚ), (1:ℚ)/2)].filter (fun p => p.2 > 2/5)).map (fun p => p.1) := by
    with_unfolding_all decide
  have hm : (10:ℚ) = medianQ ([(10:ℚ)].map (fun angulo => qmod (angulo - 0 + 180) 360 - 180)) := by
    with_unfolding_all decide
  have h := (C6_calibrate_behavior [(10, 1/2)] 0 doaInit [10] hk 10 hm).2.1
    (by with_unfolding_all decide) (by norm_num)
  exact ⟨by with_unfolding_all decide, by norm_num, h⟩

/-- C10: in the default zero-phase mode, `apply_beamforming` neither reads
nor writes the streaming filter state `filtro_zi` (the output is the same
for any two stored states, the state is returned unchanged), and calling it
again on the state it returned reproduces the same output. -/
theorem C10_filtfilt_mode_stateless (hann : ℕ → ℚ) (b a zi : List ℚ)
    (dsamp : Fin 4 → ℕ) (st st2 : Option (List ℚ)) (x : List (Fin 4 → ℚ)) :
    (applyBeamforming hann b a zi dsamp st x).1 =
      (applyBeamforming hann b a zi dsamp st2 x).1 ∧
    (applyBeamforming hann b a zi dsamp st x).2 = st ∧
    (applyBeamforming hann b a zi dsamp
        ((applyBeamforming hann b a zi dsamp st x).2) x).1 =
      (applyBeamforming hann b a zi dsamp st x).1 :=
  ⟨rfl, rfl, rfl⟩

/-! ## Claim theorems: the beamformer -/

theorem lfilterGo_length (bn an : List ℚ) :
    ∀ (x z : List ℚ), (lfilterGo bn an z x).1.length = x.length := by
  intro x
  induction x with
  | nil => intro z; rfl
  | cons xi rest ih =>
    intro z
    simp only [lfilterGo, List.length_cons]
    rw [ih]

theorem lfilterQ_length (b a zi x : List ℚ) :
    (lfilterQ b a zi x).1.length = x.length := by
  unfold lfilterQ
  exact lfilterGo_length _ _ x zi

theorem oddExtQ_length (p : ℕ) (x : List ℚ) :
    (oddExtQ p x).length = p + x.length + p := by
  simp [oddExtQ]
  omega

theorem filtfiltQ_length {b a zi x : List ℚ}
    (h : 3 * max a.length b.length < x.length) :
    (filtfiltQ b a zi x).map List.length = some x.length := by
  unfold filtfiltQ
  rw [if_neg (by omega)]
  rw [Option.map_some']
  congr 1
  rw [List.length_take, List.length_drop, List.length_reverse, lfilterQ_length,
    List.length_reverse, lfilterQ_length, oddExtQ_length]
  omega

theorem ventanear_length (hann : ℕ → ℚ) (x : List (Fin 4 → ℚ)) :
    (ventanear hann x).length = x.length := by
  simp [ventanear]

theorem senalSinFiltrar_length (dsamp : Fin 4 → ℕ) (xw : List (Fin 4 → ℚ)) :
    (senalSinFiltrar dsamp xw).length = xw.length := by
  simp only [senalSinFiltrar, beamformedSignal, List.length_take, List.length_map,
    List.length_range]
  omega

/-- C8: for every 4-channel input block longer than `filtfilt`'s padding
(27 samples for the 9-tap band-pass; the system's blocks have 1024) and for
every quantized delay row — hence for every angle in `[0, 360)`, whatever its
maximum delay — the beamformer's output block has exactly as many samples as
the input block. -/
theorem C8_output_length_eq_input_length (hann : ℕ → ℚ) (b a zi : List ℚ)
    (dsamp : Fin 4 → ℕ) (filtroZi : Option (List ℚ)) (x : List (Fin 4 → ℚ))
    (h : 3 * max a.length b.length < x.length) :
    ((applyBeamforming hann b a zi dsamp filtroZi x).1).map List.length =
      some x.length := by
  have hl : (senalSinFiltrar dsamp (ventanear hann x)).length = x.length := by
    rw [senalSinFiltrar_length, ventanear_length]
  show (filtfiltQ b a zi (senalSinFiltrar dsamp (ventanear hann x))).map List.length =
    some x.length
  rw [@filtfiltQ_length b a zi (senalSinFiltrar dsamp (ventanear hann x)) (by rw [hl]; exact h)]
  rw [hl]

/-- Witness for C8: a 4-sample all-zero block with 1-tap coefficient vectors
(padding 3 < 4): the output block exists and has 4 samples. -/
theorem C8_output_length_witness :
    3 * max ([(1:ℚ)].length) ([(1:ℚ)].length) <
      (List.replicate 4 (fun _ => (0:ℚ)) : List (Fin 4 → ℚ)).length ∧
    ((applyBeamforming (fun _ => 0) [1] [1] [] (fun _ => 0) none
        (List.replicate 4 (fun _ => 0))).1).map List.length = some 4 := by
  have h : 3 * max ([(1:ℚ)].length) ([(1:ℚ)].length) <
      (List.replicate 4 (fun _ => (0:ℚ)) : List (Fin 4 → ℚ)).length := by decide
  exact ⟨h, C8_output_length_eq_input_length (fun _ => 0) [1] [1] [] (fun _ => 0)
    none (List.replicate 4 (fun _ => 0)) h⟩

theorem getD_map_range {α : Type} (f : ℕ → α) (d : α) (N i : ℕ) :
    ((List.range N).map f).getD i d = if i < N then f i else d := by
  by_cases h : i < N
  · rw [if_pos h, List.getD_eq_getElem?_getD, List.getElem?_map]
    simp [List.getElem?_range, h]
  · rw [if_neg h, List.getD_eq_getElem?_getD, List.getElem?_map]
    rw [List.getElem?_eq_none (by simpa using h)]
    rfl

theorem getD_take (l : List ℚ) (n i : ℕ) (h : i < n) (d : ℚ) :
    (l.take n).getD i d = l.getD i d := by
  rw [List.getD_eq_getElem?_getD, List.getD_eq_getElem?_getD, List.getElem?_take,
    if_pos h]

theorem dsamp_le_maxDelay (dsamp : Fin 4 → ℕ) (m : Fin 4) :
    dsamp m ≤ maxDelay dsamp := by
  match m with
  | 0 => exact le_trans (le_max_left _ _) (le_max_left _ _)
  | 1 => exact le_trans (le_max_right _ _) (le_max_left _ _)
  | 2 => exact le_trans (le_max_left _ _) (le_max_right _ _)
  | 3 => exact le_trans (le_max_right _ _) (le_max_right _ _)

theorem alignedEntry_eq (dsamp : Fin 4 → ℕ) (xw : List (Fin 4 → ℚ)) (i : ℕ)
    (m : Fin 4) :
    alignedEntry dsamp xw i m =
      if dsamp m ≤ i ∧ i < dsamp m + xw.length then
        xw.getD (i - dsamp m) (fun _ => 0) m
      else 0 := by
  unfold alignedEntry
  by_cases h : dsamp m ≤ i ∧ i < dsamp m + xw.length
  · have hg : dsamp m + xw.length ≤ xw.length + maxDelay dsamp := by
      have := dsamp_le_maxDelay dsamp m
      omega
    rw [if_pos ⟨hg, h.1, h.2⟩, if_pos h]
  · rw [if_neg (fun hc => h ⟨hc.2.1, hc.2.2⟩), if_neg h]

theorem alignedSum_eq_zero_of_count_zero (dsamp : Fin 4 → ℕ)
    (xw : List (Fin 4 → ℚ)) (i : ℕ)
    (h : contribCount dsamp xw.length i = 0) :
    alignedSum dsamp xw i = 0 := by
  have hnil : ((List.finRange 4).filter
      (fun m => decide (dsamp m ≤ i ∧ i < dsamp m + xw.length))) = [] :=
    List.length_eq_zero.mp h
  have hall := List.filter_eq_nil_iff.mp hnil
  unfold alignedSum
  apply List.sum_eq_zero
  intro q hq
  obtain ⟨m, hm, rfl⟩ := List.mem_map.mp hq
  rw [alignedEntry_eq]
  rw [if_neg ?hcond]
  case hcond =>
    intro hc
    exact hall m hm (by simpa using hc)

/-- C4 (amended): at every output index the delay-sum output is the aligned
sum divided by a flat 4, which equals `(count/4)` times the specification's
count-normalized value — so edge indices with fewer than four contributors
ARE attenuated by the factor `count/4` relative to the claimed behaviour. -/
theorem C4_flat_division_amended (dsamp : Fin 4 → ℕ) (xw : List (Fin 4 → ℚ))
    (i : ℕ) :
    (senalSinFiltrar dsamp xw).getD i 0 =
      ((contribCount dsamp xw.length i : ℚ) / 4) *
        (delaySumPorContribuyentes dsamp xw).getD i 0 := by
  by_cases hi : i < xw.length
  · have h1 : (senalSinFiltrar dsamp xw).getD i 0 = alignedSum dsamp xw i / 4 := by
      unfold senalSinFiltrar beamformedSignal
      rw [getD_take _ _ _ (by omega), getD_map_range, if_pos (by omega)]
    have h2 : (delaySumPorContribuyentes dsamp xw).getD i 0 =
        alignedSum dsamp xw i / (contribCount dsamp xw.length i : ℚ) := by
      unfold delaySumPorContribuyentes
      rw [getD_map_range, if_pos hi]
    rw [h1, h2]
    by_cases hc : contribCount dsamp xw.length i = 0
    · rw [alignedSum_eq_zero_of_count_zero dsamp xw i hc, hc]
      norm_num
    · have hcq : (contribCount dsamp xw.length i : ℚ) ≠ 0 := Nat.cast_ne_zero.mpr hc
      field_simp
      ring
  · have h1 : (senalSinFiltrar dsamp xw).getD i 0 = 0 :=
      List.getD_eq_default _ _ (by rw [senalSinFiltrar_length]; omega)
    have h2 : (delaySumPorContribuyentes dsamp xw).getD i 0 = 0 :=
      List.getD_eq_default _ _
        (by unfold delaySumPorContribuyentes
            rw [List.length_map, List.length_range]
            omega)
    rw [h1, h2, mul_zero]

/-! ## Claim theorems: the delay tables (real-valued geometry) -/

theorem npRound_nonneg {x : ℝ} (hx : 0 ≤ x) : 0 ≤ npRound x := by
  unfold npRound
  have h0 : (0:ℤ) ≤ ⌊x⌋ := Int.floor_nonneg.mpr hx
  split_ifs <;> omega

theorem beamRowMin_le (a : Fin 360) (mic : Fin 4) :
    beamRowMin a ≤ beamDelaysPre a mic := by
  match mic with
  | 0 => exact le_trans (min_le_left _ _) (min_le_left _ _)
  | 1 => exact le_trans (min_le_left _ _) (min_le_right _ _)
  | 2 => exact le_trans (min_le_right _ _) (min_le_left _ _)
  | 3 => exact le_trans (min_le_right _ _) (min_le_right _ _)

/-- C5: every row of the beamformer's normalized table has minimum exactly
zero, and therefore every quantized integer-sample shift
`round(delay * 16000)` used in delay-sum alignment is non-negative. -/
theorem C5_quantized_rows_min_zero (a : Fin 360) :
    min (min (beamDelays a 0) (beamDelays a 1))
      (min (beamDelays a 2) (beamDelays a 3)) = 0 ∧
    ∀ mic : Fin 4, 0 ≤ delaySamplesReal a mic := by
  constructor
  · unfold beamDelays
    rw [min_sub_sub_right, min_sub_sub_right, min_sub_sub_right]
    unfold beamRowMin
    exact sub_self _
  · intro mic
    unfold delaySamplesReal
    apply npRound_nonneg
    apply mul_nonneg _ (by norm_num)
    unfold beamDelays
    rw [sub_nonneg]
    exact beamRowMin_le a mic

/-- C2 (amended): the beamformer's pre-normalization table matches the
specification formula `-(position · direction)/c` exactly, at every whole
degree and microphone; the DOA estimator's table stores the opposite sign,
`+(position · direction)/c`, at every 0.25°-grid angle and microphone. -/
theorem C2_delay_tables_amended :
    (∀ (a : Fin 360) (mic : Fin 4),
      beamDelaysPre a mic = delaySpecFormula (deg2rad ((a : ℕ) : ℝ)) mic) ∧
    (∀ (i : Fin 1440) (mic : Fin 4),
      doaDelays i mic = -delaySpecFormula (deg2rad ((i : ℕ) * (1/4 : ℝ))) mic) := by
  constructor
  · intro a mic
    rfl
  · intro i mic
    unfold doaDelays delaySpecFormula
    rw [neg_div, neg_neg]

/-- C2 counterexample: at angle index 0 (θ = 0°) and microphone 0 the DOA
table holds `-radio/c`, while the claimed formula gives `+radio/c`;
they differ. -/
theorem C2_delay_table_sign_counterexample :
    doaDelays 0 0 = -(radio / soundSpeed) ∧
    delaySpecFormula (deg2rad (((0 : Fin 1440) : ℕ) * (1/4 : ℝ))) 0 =
      radio / soundSpeed ∧
    doaDelays 0 0 ≠ delaySpecFormula (deg2rad (((0 : Fin 1440) : ℕ) * (1/4 : ℝ))) 0 := by
  have h1 : doaDelays 0 0 = -(radio / soundSpeed) := by
    unfold doaDelays dot2 posiciones direccion deg2rad
    norm_num [Real.cos_zero, Real.sin_zero]
    ring
  have h2 : delaySpecFormula (deg2rad (((0 : Fin 1440) : ℕ) * (1/4 : ℝ))) 0 =
      radio / soundSpeed := by
    unfold delaySpecFormula dot2 posiciones direccion deg2rad
    norm_num [Real.cos_zero, Real.sin_zero]
  refine ⟨h1, h2, ?_⟩
  rw [h1, h2]
  unfold radio soundSpeed
  norm_num

theorem beamDelaysPre_zero :
    beamDelaysPre 0 0 = radio / soundSpeed ∧ beamDelaysPre 0 1 = 0 ∧
    beamDelaysPre 0 2 = -(radio / soundSpeed) ∧ beamDelaysPre 0 3 = 0 := by
  refine ⟨?_, ?_, ?_, ?_⟩ <;>
    · unfold beamDelaysPre dot2 posiciones direccion deg2rad
      norm_num [Real.cos_zero, Real.sin_zero]
      try ring

theorem beamRowMin_zero : beamRowMin 0 = -(radio / soundSpeed) := by
  obtain ⟨e0, e1, e2, e3⟩ := beamDelaysPre_zero
  unfold beamRowMin
  rw [e0, e1, e2, e3]
  unfold radio soundSpeed
  norm_num [min_def]

theorem delaySamplesReal_zero :
    delaySamplesReal 0 0 = 3 ∧ delaySamplesReal 0 1 = 2 ∧
    delaySamplesReal 0 2 = 0 ∧ delaySamplesReal 0 3 = 2 := by
  obtain ⟨e0, e1, e2, e3⟩ := beamDelaysPre_zero
  have hv0 : beamDelays 0 0 * 16000 = 1040/343 := by
    unfold beamDelays
    rw [e0, beamRowMin_zero]
    unfold radio soundSpeed
    norm_num
  have hv1 : beamDelays 0 1 * 16000 = 520/343 := by
    unfold beamDelays
    rw [e1, beamRowMin_zero]
    unfold radio soundSpeed
    norm_num
  have hv2 : beamDelays 0 2 * 16000 = 0 := by
    unfold beamDelays
    rw [e2, beamRowMin_zero]
    norm_num
  have hv3 : beamDelays 0 3 * 16000 = 520/343 := by
    unfold beamDelays
    rw [e3, beamRowMin_zero]
    unfold radio soundSpeed
    norm_num
  have hf0 : ⌊(1040/343 : ℝ)⌋ = 3 := by
    rw [Int.floor_eq_iff]
    constructor <;> norm_num
  have hf1 : ⌊(520/343 : ℝ)⌋ = 1 := by
    rw [Int.floor_eq_iff]
    constructor <;> norm_num
  refine ⟨?_, ?_, ?_, ?_⟩
  · unfold delaySamplesReal npRound
    rw [hv0, hf0, if_pos (by push_cast; norm_num)]
  · unfold delaySamplesReal npRound
    rw [hv1, hf1, if_neg (by push_cast; norm_num), if_pos (by push_cast; norm_num)]
    decide
  · unfold delaySamplesReal npRound
    rw [hv2, Int.floor_zero, if_pos (by push_cast; norm_num)]
  · unfold delaySamplesReal npRound
    rw [hv3, hf1, if_neg (by push_cast; norm_num), if_pos (by push_cast; norm_num)]
    decide

theorem hanningReal_three :
    hanningReal 3 0 = ((w3 0 : ℚ) : ℝ) ∧ hanningReal 3 1 = ((w3 1 : ℚ) : ℝ) ∧
    hanningReal 3 2 = ((w3 2 : ℚ) : ℝ) := by
  refine ⟨?_, ?_, ?_⟩
  · unfold hanningReal w3
    norm_num [Real.cos_zero]
  · unfold hanningReal w3
    have h : 2 * Real.pi * ((1:ℕ):ℝ) / (((3:ℕ):ℝ) - 1) = Real.pi := by
      push_cast
      ring
    rw [h, Real.cos_pi]
    norm_num
  · unfold hanningReal w3
    have h : 2 * Real.pi * ((2:ℕ):ℝ) / (((3:ℕ):ℝ) - 1) = 2 * Real.pi := by
      push_cast
      ring
    rw [h, Real.cos_two_pi]
    norm_num

/-- C4 counterexample: at angle 0° the quantized delay row is `[3, 2, 0, 2]`
(proved from the real table) and `np.hanning(3) = [0, 1, 0]` (proved from the
real window); on the 3-sample all-ones block, the code's flat `/4` delay-sum
output `[0, 1/4, 0]` differs from the contributor-count-normalized output
`[0, 1, 0]` claimed by the specification (output index 1 has a single
contributing microphone). -/
theorem C4_flat_division_counterexample :
    delaySamplesReal 0 0 = (dsampAngle0 0 : ℤ) ∧
    delaySamplesReal 0 1 = (dsampAngle0 1 : ℤ) ∧
    delaySamplesReal 0 2 = (dsampAngle0 2 : ℤ) ∧
    delaySamplesReal 0 3 = (dsampAngle0 3 : ℤ) ∧
    hanningReal 3 0 = ((w3 0 : ℚ) : ℝ) ∧ hanningReal 3 1 = ((w3 1 : ℚ) : ℝ) ∧
    hanningReal 3 2 = ((w3 2 : ℚ) : ℝ) ∧
    senalSinFiltrar dsampAngle0 (ventanear w3 bloque3) = [0, 1/4, 0] ∧
    delaySumPorContribuyentes dsampAngle0 (ventanear w3 bloque3) = [0, 1, 0] ∧
    senalSinFiltrar dsampAngle0 (ventanear w3 bloque3) ≠
      delaySumPorContribuyentes dsampAngle0 (ventanear w3 bloque3) := by
  obtain ⟨d0, d1, d2, d3⟩ := delaySamplesReal_zero
  obtain ⟨h0, h1, h2⟩ := hanningReal_three
  refine ⟨?_, ?_, ?_, ?_, h0, h1, h2, ?_, ?_, ?_⟩
  · rw [d0]; rfl
  · rw [d1]; rfl
  · rw [d2]; rfl
  · rw [d3]; rfl
  · with_unfolding_all decide
  · with_unfolding_all decide
  · with_unfolding_all decide
